import Mathlib

/-!
Verification of `bake_materials_to_uv.py` (UV-Baker Blender addon).

Shallow embedding: the parts of the addon's material-graph state that the
rewire/restore protocol, the principled-node search, the bake orchestration,
the ORM channel packer, the image enumeration, the save operation and the
unregister cleanup read or mutate are modelled as Lean structures; each
Python helper becomes a Lean function mirroring its control flow.
Floating-point socket values are modelled as rationals: the code only
copies them around (snapshot / write-back), never computes with them, so
exact restoration ("bit-for-bit") is value-type independent.
-/

namespace UVBaker

/-- A socket default value: Blender color sockets hold an RGBA vector,
scalar sockets (Metallic, Alpha, Emission Strength) hold one float.
`_setup_rewire` distinguishes the two via `hasattr(val, '__len__')`. -/
inductive SockVal where
  | scalar (v : ℚ)
  | color (r g b a : ℚ)
deriving DecidableEq, Repr

/-- `rgb_node.outputs[0].default_value = (val[0], val[1], val[2], 1.0)` for a
color default, `(val, val, val, 1.0)` for a scalar default
(src lines 368-371). -/
def broadcastVal : SockVal → ℚ × ℚ × ℚ × ℚ
  | .color r g b _ => (r, g, b, 1)
  | .scalar v => (v, v, v, 1)

/-- A node of the containing node tree, abstracted to what the rewire code
touches: its identity, its name, and its single output's default value
(only the temporary `ShaderNodeRGB` nodes have the latter two written).
`id` models Python object identity: `nodes.remove(node)` removes by
identity, never by name. -/
structure TreeNode where
  id : ℕ
  name : String
  outValue : ℚ × ℚ × ℚ × ℚ
deriving DecidableEq, Repr

/-- The state of the node tree returned by `_find_principled` (the
"containing tree") that `_setup_rewire` / `_restore_rewire` read or write:
the links into the found Principled BSDF's "Emission Color" input (as the
ids of their `from_socket`s, in tree order), that input's default value
(snapshotted via `list(...)`, src line 352), the "Emission Strength"
default, the links into and default of the chosen source input
(e.g. "Base Color" / "Alpha" / "Metallic"), the tree's node list, and a
fresh-id counter modelling `nodes.new` allocating a new object. -/
structure ContainingTree where
  emissionColorLinks : List ℕ
  emissionColorDefault : List ℚ
  emissionStrength : ℚ
  sourceLinks : List ℕ
  sourceDefault : SockVal
  nodes : List TreeNode
  nextId : ℕ
deriving DecidableEq, Repr

/-- The per-material entry of `restore_data` built by `_setup_rewire`
(src lines 346-355): snapshot of emission-color links and default,
emission-strength default, and the temporary RGB nodes created. The
`node_tree` / `principled` object references of the Python dict are
modelled by pairing each record with its material (see `MaterialM`). -/
structure RestoreRecord where
  emission_color_links : List ℕ
  emission_color_default : List ℚ
  emission_strength_value : ℚ
  temp_nodes : List TreeNode
deriving DecidableEq, Repr

/-- The body of `_setup_rewire`'s per-material loop after the Principled
node and its containing tree are found (src lines 339-376): snapshot,
disconnect all emission-color links, reconnect either the source input's
upstream socket (if linked) or a fresh constant RGB node initialised from
the source input's default, then force emission strength to 1.0. -/
def setup_rewire_tree (t : ContainingTree) (source_input_name : String) :
    ContainingTree × RestoreRecord :=
  let restore : RestoreRecord :=
    { emission_color_links := t.emissionColorLinks
      emission_color_default := t.emissionColorDefault
      emission_strength_value := t.emissionStrength
      temp_nodes := [] }
  match t.sourceLinks with
  | src :: _ =>
      ({ t with emissionColorLinks := [src], emissionStrength := 1 }, restore)
  | [] =>
      let rgb_node : TreeNode :=
        { id := t.nextId
          name := "_bake_" ++ source_input_name ++ "_temp"
          outValue := broadcastVal t.sourceDefault }
      ({ t with
           emissionColorLinks := [rgb_node.id]
           emissionStrength := 1
           nodes := t.nodes ++ [rgb_node]
           nextId := t.nextId + 1 },
       { restore with temp_nodes := [rgb_node] })

/-- The body of `_restore_rewire`'s loop for one record (src lines
380-398): remove all current emission-color links, re-create the
snapshotted ones in order, write back both defaults, and remove the
temporary nodes by identity. -/
def restore_rewire_tree (t : ContainingTree) (r : RestoreRecord) :
    ContainingTree :=
  { t with
      emissionColorLinks := r.emission_color_links
      emissionColorDefault := r.emission_color_default
      emissionStrength := r.emission_strength_value
      nodes := r.temp_nodes.foldl
        (fun ns n => ns.filter (fun m => m.id ≠ n.id)) t.nodes }

/-- Well-formedness of a tree state: every node id was allocated below the
fresh-id counter, so `nodes.new` really returns a fresh object. -/
def ContainingTree.wf (t : ContainingTree) : Prop :=
  ∀ n ∈ t.nodes, n.id < t.nextId

theorem setup_restore_tree_roundtrip (t : ContainingTree)
    (name : String) (hwf : t.wf) :
    (restore_rewire_tree (setup_rewire_tree t name).1
        (setup_rewire_tree t name).2).emissionColorLinks
        = t.emissionColorLinks ∧
    (restore_rewire_tree (setup_rewire_tree t name).1
        (setup_rewire_tree t name).2).emissionColorDefault
        = t.emissionColorDefault ∧
    (restore_rewire_tree (setup_rewire_tree t name).1
        (setup_rewire_tree t name).2).emissionStrength
        = t.emissionStrength ∧
    (restore_rewire_tree (setup_rewire_tree t name).1
        (setup_rewire_tree t name).2).nodes = t.nodes ∧
    (restore_rewire_tree (setup_rewire_tree t name).1
        (setup_rewire_tree t name).2).sourceLinks = t.sourceLinks ∧
    (restore_rewire_tree (setup_rewire_tree t name).1
        (setup_rewire_tree t name).2).sourceDefault = t.sourceDefault := by
  obtain ⟨ec, ecd, es, sl, sd, ns, ni⟩ := t
  simp only [ContainingTree.wf] at hwf
  cases sl with
  | cons src rest =>
      simp [setup_rewire_tree, restore_rewire_tree]
  | nil =>
      simp only [setup_rewire_tree, restore_rewire_tree,
        List.foldl_cons, List.foldl_nil, List.filter_append]
      refine ⟨trivial, trivial, trivial, ?_, trivial, trivial⟩
      have h1 : ns.filter (fun m : TreeNode => m.id ≠ ni) = ns := by
        apply List.filter_eq_self.mpr
        intro m hm
        have h2 := hwf m hm
        simp only [ne_eq, decide_eq_true_eq]
        omega
      simp [h1]
      intro a ha
      have h2 := hwf a ha
      omega

/-- A shader node as `_find_principled` classifies it (src lines 316-319):
its `type` attribute is either `'BSDF_PRINCIPLED'`, `'GROUP'` (with a nested
node tree, or with `node_tree is None`), or anything else. A node tree is a
`List NNode`; a group node embeds its tree's node list. -/
inductive NNode : Type where
  | principled (nm : String)
  | group (sub : List NNode)
  | groupNone
  | other (ty : String)

/-- The loop of `_find_principled` (src lines 316-323): iterate over the
nodes of the current tree; return the first Principled BSDF together with
the full tree being iterated (`full`); on a group node, recurse into its
tree at `depth + 1` (the recursive call returns `None` when
`depth + 1 > 10`, src line 314) and fall through to the remaining nodes
when that finds nothing. -/
def findLoop : List NNode → List NNode → ℕ → Option (NNode × List NNode)
  | _, [], _ => none
  | full, n :: rest, depth =>
    match n with
    | .principled nm => some (.principled nm, full)
    | .group sub =>
        match (if depth + 1 > 10 then none
               else findLoop sub sub (depth + 1)) with
        | some r => some r
        | none => findLoop full rest depth
    | .groupNone => findLoop full rest depth
    | .other _ => findLoop full rest depth
termination_by _ l _ => sizeOf l
decreasing_by
  all_goals simp_wf
  all_goals omega

/-- `_find_principled(node_tree, depth)` (src lines 312-323): the `depth >
10` guard, then the search loop over the tree's nodes. -/
def find_principled (tree : List NNode) (depth : ℕ) :
    Option (NNode × List NNode) :=
  if depth > 10 then none else findLoop tree tree depth

/-- Modelled from the spec's words for C5: the list of all
physically-based nodes, each paired with the node tree that contains it,
in depth-first pre-order, visiting nested group trees at the group node's
position, cut off beyond the recursion bound of 10. The first element of
this list is what a bounded depth-first search must return. -/
def enumLoop : List NNode → List NNode → ℕ → List (NNode × List NNode)
  | _, [], _ => []
  | full, n :: rest, depth =>
    match n with
    | .principled nm => (NNode.principled nm, full) :: enumLoop full rest depth
    | .group sub =>
        (if depth + 1 > 10 then []
         else enumLoop sub sub (depth + 1)) ++ enumLoop full rest depth
    | .groupNone => enumLoop full rest depth
    | .other _ => enumLoop full rest depth
termination_by _ l _ => sizeOf l
decreasing_by
  all_goals simp_wf
  all_goals omega

/-- Modelled from the spec's words for C5: bounded depth-first enumeration
of (physically-based node, containing tree) pairs starting from the root. -/
def enumPrincipled (tree : List NNode) (depth : ℕ) :
    List (NNode × List NNode) :=
  if depth > 10 then [] else enumLoop tree tree depth

theorem findLoop_eq_head (full l : List NNode) (depth : ℕ) :
    findLoop full l depth = (enumLoop full l depth).head? := by
  induction full, l, depth using findLoop.induct with
  | case1 full depth => simp [findLoop, enumLoop]
  | case2 full rest depth nm => simp [findLoop, enumLoop]
  | case3 full rest depth sub r h ih =>
      have h2 : (if depth + 1 > 10 then none
          else findLoop sub sub (depth + 1)) = some r := by simpa using h
      simp only [findLoop, enumLoop, h2]
      by_cases hd : depth + 1 > 10
      · rw [if_pos hd] at h2
        exact absurd h2 (by simp)
      · rw [if_neg hd] at h2
        rw [ih] at h2
        rw [if_neg hd, List.head?_append, h2]
        rfl
  | case4 full rest depth sub h ih ih2 =>
      have h2 : (if depth + 1 > 10 then none
          else findLoop sub sub (depth + 1)) = none := by simpa using h
      simp only [findLoop, enumLoop, h2]
      by_cases hd : depth + 1 > 10
      · rw [if_pos hd, List.nil_append]
        exact ih2
      · rw [if_neg hd] at h2
        rw [ih] at h2
        have h3 : enumLoop sub sub (depth + 1) = [] :=
          List.head?_eq_none_iff.mp h2
        rw [if_neg hd, h3, List.nil_append]
        exact ih2
  | case5 full rest depth ih =>
      simp only [findLoop, enumLoop]
      exact ih
  | case6 full rest depth ty ih =>
      simp only [findLoop, enumLoop]
      exact ih

theorem enumLoop_mem (full l : List NNode) (depth : ℕ) :
    l ⊆ full →
    ∀ p ∈ enumLoop full l depth,
      (∃ nm, p.1 = NNode.principled nm) ∧ p.1 ∈ p.2 := by
  induction full, l, depth using enumLoop.induct with
  | case1 full depth => simp [enumLoop]
  | case2 full rest depth nm ih =>
      intro hsub p hp
      simp only [enumLoop, List.mem_cons] at hp
      rcases hp with h | h
      · subst h
        exact ⟨⟨nm, rfl⟩, hsub (List.mem_cons_self _ _)⟩
      · exact ih (fun x hx => hsub (List.mem_cons_of_mem _ hx)) p h
  | case3 full rest depth sub ih ih2 =>
      intro hsub p hp
      simp only [enumLoop, List.mem_append] at hp
      rcases hp with h | h
      · by_cases hd : depth + 1 > 10
        · simp [hd] at h
        · rw [if_neg hd] at h
          exact ih (fun x hx => hx) p h
      · exact ih2 (fun x hx => hsub (List.mem_cons_of_mem _ hx)) p h
  | case4 full rest depth ih =>
      intro hsub p hp
      simp only [enumLoop] at hp
      exact ih (fun x hx => hsub (List.mem_cons_of_mem _ hx)) p hp
  | case5 full rest depth ty ih =>
      intro hsub p hp
      simp only [enumLoop] at hp
      exact ih (fun x hx => hsub (List.mem_cons_of_mem _ hx)) p hp

theorem find_principled_eq_head (tree : List NNode) (depth : ℕ) :
    find_principled tree depth = (enumPrincipled tree depth).head? := by
  unfold find_principled enumPrincipled
  by_cases hd : depth > 10
  · simp [hd]
  · simp [hd, findLoop_eq_head]

/-- C5: `_find_principled` is a bounded depth-first search: it returns
`None` whenever the recursion bound (10) is exceeded; in general it
returns the head of the depth-first pre-order enumeration of
(physically-based node, containing tree) pairs cut off at the bound —
the first such node found, or `None` (modelling `(None, None)`) when none
exists within the bound; and any returned node really is a Principled
BSDF that is a member of the returned containing tree. -/
theorem c5_find_principled_bounded_dfs :
    (∀ (tree : List NNode) (depth : ℕ), depth > 10 →
      find_principled tree depth = none) ∧
    (∀ (tree : List NNode) (depth : ℕ),
      find_principled tree depth = (enumPrincipled tree depth).head?) ∧
    (∀ (tree : List NNode) (depth : ℕ) (p : NNode × List NNode),
      find_principled tree depth = some p →
        (∃ nm, p.1 = NNode.principled nm) ∧ p.1 ∈ p.2) := by
  refine ⟨?_, find_principled_eq_head, ?_⟩
  · intro tree depth h
    simp [find_principled, h]
  · intro tree depth p hp
    rw [find_principled_eq_head] at hp
    unfold enumPrincipled at hp
    by_cases hd : depth > 10
    · rw [if_pos hd] at hp
      simp at hp
    · rw [if_neg hd] at hp
      exact enumLoop_mem tree tree depth (fun x hx => hx) p
        (List.mem_of_mem_head? hp)

theorem c5_find_principled_bounded_dfs_witness :
    find_principled [NNode.group [NNode.principled "Principled BSDF"]] 11
      = none ∧
    find_principled [NNode.other "OUTPUT_MATERIAL",
        NNode.group [NNode.principled "Principled BSDF"]] 0
      = (enumPrincipled [NNode.other "OUTPUT_MATERIAL",
          NNode.group [NNode.principled "Principled BSDF"]] 0).head? ∧
    ((∃ nm, (NNode.principled "Principled BSDF",
        [NNode.principled "Principled BSDF"]).1 = NNode.principled nm) ∧
      (NNode.principled "Principled BSDF",
        [NNode.principled "Principled BSDF"]).1
        ∈ (NNode.principled "Principled BSDF",
            [NNode.principled "Principled BSDF"]).2) :=
  ⟨c5_find_principled_bounded_dfs.1 _ 11 (by omega),
    c5_find_principled_bounded_dfs.2.1 _ 0,
    c5_find_principled_bounded_dfs.2.2
      [NNode.other "OUTPUT_MATERIAL",
        NNode.group [NNode.principled "Principled BSDF"]] 0
      (NNode.principled "Principled BSDF",
        [NNode.principled "Principled BSDF"])
      (by simp [find_principled, findLoop])⟩

/-- One material slot's material as the rewire code sees it (src lines
328-337): the `use_nodes` flag, whether `node_tree` is present, whether the
material is library-linked, the node tree searched by `_find_principled`,
and the emission-relevant state of the containing tree the search returns
(the code mutates only that tree's links/nodes and the found node's
inputs, so that state is modelled as one `ContainingTree`). -/
structure MaterialM where
  use_nodes : Bool
  has_node_tree : Bool
  in_library : Bool
  tree : List NNode
  ct : ContainingTree

/-- The per-material body of `_setup_rewire` (src lines 329-376): skip the
material when it is unusable (`not use_nodes`, missing `node_tree`,
library-linked) or when no Principled BSDF is found; otherwise rewire the
containing tree and produce a restore record. -/
def setup_rewire_mat (m : MaterialM) (name : String) :
    MaterialM × Option RestoreRecord :=
  if m.use_nodes && m.has_node_tree && !m.in_library then
    match find_principled m.tree 0 with
    | none => (m, none)
    | some _ =>
        let p := setup_rewire_tree m.ct name
        ({ m with ct := p.1 }, some p.2)
  else (m, none)

/-- The per-record body of `_restore_rewire` (src lines 380-398), applied
to the material whose tree the record's `node_tree` / `principled`
references point at. -/
def restore_rewire_mat (m : MaterialM) (rr : RestoreRecord) : MaterialM :=
  { m with ct := restore_rewire_tree m.ct rr }

/-- The slot loop of `_setup_rewire` (src lines 328-377) over
`obj.material_slots` (a slot may hold no material). Each produced record
is tagged with its slot index, modelling the `node_tree` / `principled`
object references stored in the Python dict. -/
def setupRewireGo :
    List (Option MaterialM) → String → ℕ →
      List (Option MaterialM) × List (ℕ × RestoreRecord)
  | [], _, _ => ([], [])
  | none :: rest, name, i =>
      let r := setupRewireGo rest name (i + 1)
      (none :: r.1, r.2)
  | some m :: rest, name, i =>
      let p := setup_rewire_mat m name
      let r := setupRewireGo rest name (i + 1)
      (some p.1 :: r.1,
       (match p.2 with | some rr => [(i, rr)] | none => []) ++ r.2)

/-- `_setup_rewire(obj, source_input_name)`: rewire every usable material
slot, returning the updated slots and the accumulated `restore_data`. -/
def setup_rewire (slots : List (Option MaterialM)) (name : String) :
    List (Option MaterialM) × List (ℕ × RestoreRecord) :=
  setupRewireGo slots name 0

/-- `_restore_rewire(restore_data)` (src lines 379-398): apply each
record's restoration to the material it references. -/
def restore_rewire (slots : List (Option MaterialM))
    (data : List (ℕ × RestoreRecord)) : List (Option MaterialM) :=
  data.foldl
    (fun ms pr =>
      ms.modify
        (fun om => match om with
          | none => none
          | some m => some (restore_rewire_mat m pr.2)) pr.1)
    slots

theorem setup_rewire_mat_of_find_none (m : MaterialM) (name : String)
    (h : find_principled m.tree 0 = none) :
    setup_rewire_mat m name = (m, none) := by
  unfold setup_rewire_mat
  split
  · rw [h]
  · rfl

theorem setupRewireGo_get (slots : List (Option MaterialM)) (name : String)
    (i0 k : ℕ) :
    (setupRewireGo slots name i0).1[k]? =
      (slots[k]?).map (fun om => om.map
        (fun m => (setup_rewire_mat m name).1)) := by
  induction slots generalizing i0 k with
  | nil => simp [setupRewireGo]
  | cons hd tl ih =>
      cases hd with
      | none =>
          cases k with
          | zero => simp [setupRewireGo]
          | succ k => simpa [setupRewireGo] using ih (i0 + 1) k
      | some m =>
          cases k with
          | zero => simp [setupRewireGo]
          | succ k => simpa [setupRewireGo] using ih (i0 + 1) k

theorem setupRewireGo_entries_lb (slots : List (Option MaterialM))
    (name : String) (j : ℕ) :
    ∀ e ∈ (setupRewireGo slots name j).2, j ≤ e.1 := by
  induction slots generalizing j with
  | nil => simp [setupRewireGo]
  | cons hd tl ih =>
      cases hd with
      | none =>
          intro e he
          have := ih (j + 1) e (by simpa [setupRewireGo] using he)
          omega
      | some m =>
          intro e he
          simp only [setupRewireGo, List.mem_append] at he
          rcases he with he | he
          · rcases hp : (setup_rewire_mat m name).2 with _ | rr
            · rw [hp] at he; simp at he
            · rw [hp] at he
              simp only [List.mem_singleton] at he
              subst he
              exact le_refl j
          · have := ih (j + 1) e he
            omega

theorem setupRewireGo_no_entry (slots : List (Option MaterialM))
    (name : String) (i0 k : ℕ) (m : MaterialM)
    (hm : slots[k]? = some (some m))
    (hnone : find_principled m.tree 0 = none) :
    ∀ e ∈ (setupRewireGo slots name i0).2, e.1 ≠ i0 + k := by
  induction slots generalizing i0 k with
  | nil => simp at hm
  | cons hd tl ih =>
      cases k with
      | zero =>
          simp only [List.getElem?_cons_zero, Option.some.injEq] at hm
          subst hm
          intro e he
          simp only [setupRewireGo, setup_rewire_mat_of_find_none m name hnone,
            List.nil_append] at he
          have := setupRewireGo_entries_lb tl name (i0 + 1) e he
          omega
      | succ k =>
          cases hd with
          | none =>
              intro e he
              simp only [setupRewireGo] at he
              have := ih (i0 + 1) k (by simpa using hm) e he
              omega
          | some m0 =>
              intro e he
              simp only [setupRewireGo, List.mem_append] at he
              rcases he with he | he
              · rcases hp : (setup_rewire_mat m0 name).2 with _ | rr
                · rw [hp] at he; simp at he
                · rw [hp] at he
                  simp only [List.mem_singleton] at he
                  subst he
                  omega
              · have := ih (i0 + 1) k (by simpa using hm) e he
                omega

theorem restore_rewire_get_of_no_entry (data : List (ℕ × RestoreRecord))
    (slots : List (Option MaterialM)) (i : ℕ)
    (h : ∀ e ∈ data, e.1 ≠ i) :
    (restore_rewire slots data)[i]? = slots[i]? := by
  induction data generalizing slots with
  | nil => rfl
  | cons e tl ih =>
      have hne : e.1 ≠ i := h e (List.mem_cons_self _ _)
      have htl : ∀ x ∈ tl, x.1 ≠ i :=
        fun x hx => h x (List.mem_cons_of_mem _ hx)
      simp only [restore_rewire, List.foldl_cons]
      rw [show (List.foldl _ _ tl : List (Option MaterialM))
            = restore_rewire _ tl from rfl, ih _ htl]
      exact List.getElem?_modify_ne _ _ hne

/-- C1: for every material that has a Principled BSDF node (possibly
nested in node groups up to depth 10, i.e. `_find_principled` succeeds)
and is usable (node-based, with a tree, not library-linked),
`_restore_rewire` applied to the record produced by `_setup_rewire`
restores the emission-color incoming links, the emission-color default
value and the emission-strength default exactly, and removes the
temporary constant node `_setup_rewire` created. -/
theorem c1_rewire_restore_roundtrip (m : MaterialM) (name : String)
    (hwf : m.ct.wf)
    (husable : m.use_nodes = true ∧ m.has_node_tree = true ∧
      m.in_library = false)
    (hfound : (find_principled m.tree 0).isSome = true) :
    ∃ rr : RestoreRecord,
      (setup_rewire_mat m name).2 = some rr ∧
      (restore_rewire_mat (setup_rewire_mat m name).1 rr).ct.emissionColorLinks
        = m.ct.emissionColorLinks ∧
      (restore_rewire_mat (setup_rewire_mat m name).1
          rr).ct.emissionColorDefault
        = m.ct.emissionColorDefault ∧
      (restore_rewire_mat (setup_rewire_mat m name).1 rr).ct.emissionStrength
        = m.ct.emissionStrength ∧
      (restore_rewire_mat (setup_rewire_mat m name).1 rr).ct.nodes
        = m.ct.nodes ∧
      ∀ tn ∈ rr.temp_nodes,
        tn ∉ (restore_rewire_mat (setup_rewire_mat m name).1 rr).ct.nodes := by
  obtain ⟨hu, hh, hl⟩ := husable
  obtain ⟨pr, hf⟩ := Option.isSome_iff_exists.mp hfound
  have hsm : setup_rewire_mat m name =
      ({ m with ct := (setup_rewire_tree m.ct name).1 },
        some (setup_rewire_tree m.ct name).2) := by
    simp [setup_rewire_mat, hu, hh, hl, hf]
  refine ⟨(setup_rewire_tree m.ct name).2, ?_, ?_⟩
  · rw [hsm]
  · rw [hsm]
    have R := setup_restore_tree_roundtrip m.ct name hwf
    simp only [restore_rewire_mat]
    refine ⟨R.1, R.2.1, R.2.2.1, R.2.2.2.1, ?_⟩
    intro tn htn hmem
    rw [R.2.2.2.1] at hmem
    cases hsl : m.ct.sourceLinks with
    | cons src rest =>
        simp [setup_rewire_tree, hsl] at htn
    | nil =>
        simp only [setup_rewire_tree, hsl, List.mem_singleton] at htn
        subst htn
        have h4 := hwf _ hmem
        simp at h4

/-- C6: a usable material whose graph contains no Principled BSDF within
the search bound is silently skipped: `_setup_rewire` leaves it unchanged
and records no entry for it, and `_restore_rewire` on the resulting
`restore_data` leaves it unchanged as well (no error path exists: both
functions are total). -/
theorem c6_no_principled_noop (slots : List (Option MaterialM))
    (name : String) (i : ℕ) (m : MaterialM)
    (hm : slots[i]? = some (some m))
    (hnone : find_principled m.tree 0 = none) :
    (setup_rewire slots name).1[i]? = some (some m) ∧
    (∀ e ∈ (setup_rewire slots name).2, e.1 ≠ i) ∧
    (restore_rewire (setup_rewire slots name).1
        (setup_rewire slots name).2)[i]? = some (some m) := by
  have h1 : (setup_rewire slots name).1[i]? = some (some m) := by
    rw [setup_rewire, setupRewireGo_get, hm]
    simp [setup_rewire_mat_of_find_none m name hnone]
  have h2 : ∀ e ∈ (setup_rewire slots name).2, e.1 ≠ i := by
    have h3 := setupRewireGo_no_entry slots name 0 i m hm hnone
    simpa using h3
  refine ⟨h1, h2, ?_⟩
  rw [restore_rewire_get_of_no_entry _ _ _ h2]
  exact h1

/-- C7: `_setup_rewire` snapshots the emission-color links and default and
the emission-strength default; it then forces emission strength to 1.0,
and either routes the source input's upstream socket into emission color
(leaving the node list untouched, creating nothing), or — when the source
input is unlinked — creates one temporary constant node named after the
source input, initialised from the source default (a scalar broadcast to
all three color channels, a color's RGB kept with alpha forced to 1), and
routes it into emission color. -/
theorem c7_setup_rewire_behavior (t : ContainingTree) (name : String) :
    (setup_rewire_tree t name).2.emission_color_links
      = t.emissionColorLinks ∧
    (setup_rewire_tree t name).2.emission_color_default
      = t.emissionColorDefault ∧
    (setup_rewire_tree t name).2.emission_strength_value
      = t.emissionStrength ∧
    (setup_rewire_tree t name).1.emissionStrength = 1 ∧
    (∀ src rest, t.sourceLinks = src :: rest →
      (setup_rewire_tree t name).1.emissionColorLinks = [src] ∧
      (setup_rewire_tree t name).1.nodes = t.nodes ∧
      (setup_rewire_tree t name).2.temp_nodes = []) ∧
    (t.sourceLinks = [] →
      ∃ nd : TreeNode,
        (setup_rewire_tree t name).2.temp_nodes = [nd] ∧
        (setup_rewire_tree t name).1.nodes = t.nodes ++ [nd] ∧
        (setup_rewire_tree t name).1.emissionColorLinks = [nd.id] ∧
        nd.name = "_bake_" ++ name ++ "_temp" ∧
        (∀ v : ℚ, t.sourceDefault = SockVal.scalar v →
          nd.outValue = (v, v, v, 1)) ∧
        (∀ r g b a : ℚ, t.sourceDefault = SockVal.color r g b a →
          nd.outValue = (r, g, b, 1))) := by
  obtain ⟨ec, ecd, es, sl, sd, ns, ni⟩ := t
  cases sl with
  | cons src rest =>
      refine ⟨rfl, rfl, rfl, rfl, ?_, ?_⟩
      · intro src2 rest2 h
        injection h with h1 h2
        subst h1
        subst h2
        exact ⟨rfl, rfl, rfl⟩
      · intro h
        simp at h
  | nil =>
      refine ⟨rfl, rfl, rfl, rfl, ?_, ?_⟩
      · intro src2 rest2 h
        simp at h
      · intro h
        refine ⟨⟨ni, "_bake_" ++ name ++ "_temp", broadcastVal sd⟩,
          rfl, rfl, rfl, rfl, ?_, ?_⟩
        · intro v hv
          subst hv
          rfl
        · intro r g b a hv
          subst hv
          rfl

/-- A containing-tree state used as concrete input in witnesses: emission
color linked from socket 5, non-trivial defaults, unlinked scalar source
input, one existing node, fresh-id counter above it. -/
def wCtUnlinked : ContainingTree :=
  { emissionColorLinks := [5]
    emissionColorDefault := [0, 0, 0, 1]
    emissionStrength := 1/2
    sourceLinks := []
    sourceDefault := .scalar (3/4)
    nodes := [⟨0, "Principled BSDF", (0, 0, 0, 0)⟩]
    nextId := 1 }

/-- A containing-tree state whose source input is linked (from socket 7). -/
def wCtLinked : ContainingTree :=
  { wCtUnlinked with sourceLinks := [7] }

/-- A usable material whose Principled BSDF sits inside a node group. -/
def wMatFound : MaterialM :=
  { use_nodes := true
    has_node_tree := true
    in_library := false
    tree := [.other "OUTPUT_MATERIAL", .group [.principled "Principled BSDF"]]
    ct := wCtUnlinked }

/-- A usable material with no Principled BSDF anywhere in its graph. -/
def wMatNone : MaterialM :=
  { use_nodes := true
    has_node_tree := true
    in_library := false
    tree := [.other "EMISSION", .groupNone]
    ct := wCtUnlinked }

theorem c1_rewire_restore_roundtrip_witness :
    ∃ rr : RestoreRecord,
      (setup_rewire_mat wMatFound "Metallic").2 = some rr ∧
      (restore_rewire_mat (setup_rewire_mat wMatFound "Metallic").1
          rr).ct.emissionColorLinks = wMatFound.ct.emissionColorLinks ∧
      (restore_rewire_mat (setup_rewire_mat wMatFound "Metallic").1
          rr).ct.emissionColorDefault = wMatFound.ct.emissionColorDefault ∧
      (restore_rewire_mat (setup_rewire_mat wMatFound "Metallic").1
          rr).ct.emissionStrength = wMatFound.ct.emissionStrength ∧
      (restore_rewire_mat (setup_rewire_mat wMatFound "Metallic").1
          rr).ct.nodes = wMatFound.ct.nodes ∧
      ∀ tn ∈ rr.temp_nodes,
        tn ∉ (restore_rewire_mat (setup_rewire_mat wMatFound "Metallic").1
          rr).ct.nodes :=
  c1_rewire_restore_roundtrip wMatFound "Metallic"
    (by
      intro n hn
      simp only [wMatFound, wCtUnlinked, List.mem_singleton] at hn
      subst hn
      decide)
    ⟨rfl, rfl, rfl⟩
    (by simp [wMatFound, find_principled, findLoop])

theorem c6_no_principled_noop_witness :
    (setup_rewire [some wMatNone] "Metallic").1[0]? = some (some wMatNone) ∧
    (∀ e ∈ (setup_rewire [some wMatNone] "Metallic").2, e.1 ≠ 0) ∧
    (restore_rewire (setup_rewire [some wMatNone] "Metallic").1
        (setup_rewire [some wMatNone] "Metallic").2)[0]?
      = some (some wMatNone) :=
  c6_no_principled_noop [some wMatNone] "Metallic" 0 wMatNone rfl
    (by simp [wMatNone, find_principled, findLoop])

theorem c7_setup_rewire_behavior_witness :
    ((setup_rewire_tree wCtLinked "Metallic").1.emissionColorLinks = [7] ∧
      (setup_rewire_tree wCtLinked "Metallic").1.nodes = wCtLinked.nodes ∧
      (setup_rewire_tree wCtLinked "Metallic").2.temp_nodes = []) ∧
    ∃ nd : TreeNode,
      (setup_rewire_tree wCtUnlinked "Alpha").2.temp_nodes = [nd] ∧
      (setup_rewire_tree wCtUnlinked "Alpha").1.nodes
        = wCtUnlinked.nodes ++ [nd] ∧
      (setup_rewire_tree wCtUnlinked "Alpha").1.emissionColorLinks
        = [nd.id] ∧
      nd.name = "_bake_" ++ "Alpha" ++ "_temp" ∧
      (∀ v : ℚ, wCtUnlinked.sourceDefault = SockVal.scalar v →
        nd.outValue = (v, v, v, 1)) ∧
      (∀ r g b a : ℚ, wCtUnlinked.sourceDefault = SockVal.color r g b a →
        nd.outValue = (r, g, b, 1)) :=
  ⟨(c7_setup_rewire_behavior wCtLinked "Metallic").2.2.2.2.1 7 [] rfl,
    (c7_setup_rewire_behavior wCtUnlinked "Alpha").2.2.2.2.2 rfl⟩

/-- An RGBA pixel, one row of the `reshape(-1, 4)` views in `_pack_orm`
(src lines 402-404). -/
abbrev Pix : Type := ℚ × ℚ × ℚ × ℚ

/-- The per-pixel assignment of `_pack_orm` (src lines 406-410): red from
the occlusion pixel's red, green from the roughness pixel's red, blue from
the metallic pixel's red, alpha fixed at 1.0. -/
def packPixels : List Pix → List Pix → List Pix → List Pix
  | a :: as, r :: rs, m :: ms => (a.1, r.1, m.1, 1) :: packPixels as rs ms
  | _, _, _ => []

/-- `_pack_orm(ao_img, rough_img, metal_img, width, height)` (src lines
400-414): numpy raises when a source buffer does not hold `width * height`
RGBA rows, modelled by `none`; otherwise the output buffer is the
per-pixel channel copy. -/
def pack_orm (ao rough metal : List Pix) (width height : ℕ) :
    Option (List Pix) :=
  if ao.length = width * height ∧ rough.length = width * height ∧
      metal.length = width * height
  then some (packPixels ao rough metal)
  else none

theorem packPixels_length (as : List Pix) :
    ∀ rs ms : List Pix, as.length = rs.length → rs.length = ms.length →
      (packPixels as rs ms).length = as.length := by
  induction as with
  | nil => intro rs ms h1 h2; simp [packPixels]
  | cons a as ih =>
      intro rs ms h1 h2
      cases rs with
      | nil => simp at h1
      | cons r rs =>
          cases ms with
          | nil => simp at h2
          | cons m ms =>
              simp only [packPixels, List.length_cons]
              rw [ih rs ms (by simpa using h1) (by simpa using h2)]

theorem packPixels_getD (as : List Pix) :
    ∀ (rs ms : List Pix) (p : ℕ), p < as.length → p < rs.length →
      p < ms.length →
      (packPixels as rs ms).getD p (0, 0, 0, 0) =
        ((as.getD p (0, 0, 0, 0)).1, (rs.getD p (0, 0, 0, 0)).1,
          (ms.getD p (0, 0, 0, 0)).1, 1) := by
  induction as with
  | nil => intro rs ms p h1 h2 h3; simp at h1
  | cons a as ih =>
      intro rs ms p h1 h2 h3
      cases rs with
      | nil => simp at h2
      | cons r rs =>
          cases ms with
          | nil => simp at h3
          | cons m ms =>
              cases p with
              | zero => simp [packPixels]
              | succ p =>
                  simp only [packPixels, List.getD_cons_succ]
                  exact ih rs ms p (by simpa using h1) (by simpa using h2)
                    (by simpa using h3)

/-- C4: `_pack_orm` is a pure per-pixel channel copy: for three source
buffers of `width * height` pixels it succeeds, produces a buffer of the
same pixel count, and every output pixel's red/green/blue is the red of
the corresponding occlusion/roughness/metallic pixel with alpha 1.0. -/
theorem c4_pack_orm_channel_pure (ao rough metal : List Pix)
    (width height : ℕ)
    (ha : ao.length = width * height)
    (hr : rough.length = width * height)
    (hm : metal.length = width * height) :
    ∃ out : List Pix,
      pack_orm ao rough metal width height = some out ∧
      out.length = width * height ∧
      ∀ p < width * height,
        out.getD p (0, 0, 0, 0) =
          ((ao.getD p (0, 0, 0, 0)).1, (rough.getD p (0, 0, 0, 0)).1,
            (metal.getD p (0, 0, 0, 0)).1, 1) := by
  refine ⟨packPixels ao rough metal, ?_, ?_, ?_⟩
  · simp [pack_orm, ha, hr, hm]
  · rw [packPixels_length ao rough metal (by omega) (by omega), ha]
  · intro p hp
    exact packPixels_getD ao rough metal p (by omega) (by omega) (by omega)

theorem c4_pack_orm_channel_pure_witness :
    ∃ out : List Pix,
      pack_orm [(1/2, 0, 0, 1), (1/4, 1, 0, 1)]
          [(1/3, 0, 0, 1), (1, 0, 0, 1)]
          [(0, 0, 0, 1), (3/4, 0, 0, 1)] 2 1 = some out ∧
      out.length = 2 * 1 ∧
      ∀ p < 2 * 1,
        out.getD p (0, 0, 0, 0) =
          ((([(1/2, 0, 0, 1), (1/4, 1, 0, 1)] :
              List Pix).getD p (0, 0, 0, 0)).1,
            (([(1/3, 0, 0, 1), (1, 0, 0, 1)] :
              List Pix).getD p (0, 0, 0, 0)).1,
            (([(0, 0, 0, 1), (3/4, 0, 0, 1)] :
              List Pix).getD p (0, 0, 0, 0)).1, 1) :=
  c4_pack_orm_channel_pure [(1/2, 0, 0, 1), (1/4, 1, 0, 1)]
    [(1/3, 0, 0, 1), (1, 0, 0, 1)] [(0, 0, 0, 1), (3/4, 0, 0, 1)] 2 1
    rfl rfl rfl

/-- Python `s.lower()`, as the character-wise ASCII case mapping applied
to the string's characters (src line 43). -/
def lowerStr (s : String) : String := ⟨s.data.map Char.toLower⟩

/-- Python `s.startswith(pat)`, as list-level comparison of characters. -/
def startsWithB (s pat : String) : Bool := pat.data.isPrefixOf s.data

/-- Python `pat in s` on character lists: `pat` occurs at some position. -/
def isInfixB (pat : List Char) : List Char → Bool
  | [] => pat.isEmpty
  | c :: rest => pat.isPrefixOf (c :: rest) || isInfixB pat rest

/-- Python `pat in s` (substring containment, src line 44). -/
def strContains (s pat : String) : Bool := isInfixB pat.data s.data

/-- An entry of `bpy.data.images` as `get_image_items` reads it: a name
and the two components of `size`. -/
structure BImage where
  name : String
  width : ℕ
  height : ℕ

/-- The label built at src line 46: `f"{img.name} ({w}x{h})"`. -/
def itemLabel (img : BImage) : String × String × String :=
  (img.name,
    img.name ++ " (" ++ toString img.width ++ "x" ++ toString img.height
      ++ ")", "")

/-- The filter/label loop of `get_image_items` (src lines 34-47), one
`continue` guard per line of the source. -/
def collectItems : List BImage → List (String × String × String)
  | [] => []
  | img :: rest =>
      if img.width < 512 ∨ img.height < 512 then collectItems rest
      else if img.name = "Render Result" ∨ img.name = "Viewer Node" then
        collectItems rest
      else if startsWithB img.name "_bake_" then collectItems rest
      else if startsWithB (lowerStr img.name) "thumbnail" ∨
          strContains (lowerStr img.name) "asset_type" then collectItems rest
      else itemLabel img :: collectItems rest

/-- `get_image_items(self, context)` (src lines 32-52): collect qualifying
images in declaration order, reverse the list, and substitute the
sentinel entry when nothing qualifies. -/
def get_image_items (imgs : List BImage) : List (String × String × String) :=
  let items := (collectItems imgs).reverse
  if items.isEmpty then [("NONE", "No images available", "")] else items

/-- Modelled from the spec's words for C8: an image qualifies exactly when
both dimensions are at least 512, its name is not a reserved internal
name, does not start with the internal bake-scratch marker, and is not
thumbnail- or asset-tagged. -/
def qualifies (img : BImage) : Bool :=
  (512 ≤ img.width && 512 ≤ img.height) &&
  !(img.name = "Render Result" || img.name = "Viewer Node") &&
  !(startsWithB img.name "_bake_") &&
  !(startsWithB (lowerStr img.name) "thumbnail" ||
    strContains (lowerStr img.name) "asset_type")

theorem collectItems_eq_filter (imgs : List BImage) :
    collectItems imgs = (imgs.filter qualifies).map itemLabel := by
  induction imgs with
  | nil => rfl
  | cons img rest ih =>
      by_cases h1 : img.width < 512 ∨ img.height < 512
      · have hq : qualifies img = false := by
          have hw : (512 ≤ img.width && 512 ≤ img.height) = false := by
            rcases h1 with h1 | h1
            · have h5 : ¬ 512 ≤ img.width := by omega
              simp [h5]
            · have h5 : ¬ 512 ≤ img.height := by omega
              simp [h5]
          simp [qualifies, hw]
        simp [collectItems, h1, hq, ih]
      · by_cases h2 : img.name = "Render Result" ∨ img.name = "Viewer Node"
        · have hq : qualifies img = false := by
            rcases h2 with h2 | h2 <;> simp [qualifies, h2]
          simp [collectItems, h1, h2, hq, ih]
        · by_cases h3 : startsWithB img.name "_bake_"
          · have hq : qualifies img = false := by
              simp [qualifies, h3]
            simp [collectItems, h1, h2, h3, hq, ih]
          · by_cases h4 : startsWithB (lowerStr img.name) "thumbnail" ∨
                strContains (lowerStr img.name) "asset_type"
            · have hq : qualifies img = false := by
                rcases h4 with h4 | h4 <;> simp [qualifies, h4]
              simp [collectItems, h1, h2, h3, h4, hq, ih]
            · have hq : qualifies img = true := by
                push_neg at h1 h2 h4
                have hw : 512 ≤ img.width := by omega
                have hh : 512 ≤ img.height := by omega
                have h3b : startsWithB img.name "_bake_" = false := by
                  simpa using h3
                have h4a : startsWithB (lowerStr img.name) "thumbnail"
                    = false := by simpa using h4.1
                have h4b : strContains (lowerStr img.name) "asset_type"
                    = false := by simpa using h4.2
                simp [qualifies, hw, hh, h2.1, h2.2, h3b, h4a, h4b]
              simp [collectItems, h1, h2, h3, h4, hq, ih]

/-- C8: the target-image enumeration is exactly the qualifying images
(both dimensions at least 512, name not reserved, not bake-scratch
prefixed, not thumbnail/asset-tagged), listed in reverse declaration
order, with the single "none available" sentinel when no image
qualifies. -/
theorem c8_get_image_items_spec (imgs : List BImage) :
    get_image_items imgs =
      if (imgs.filter qualifies).isEmpty
      then [("NONE", "No images available", "")]
      else ((imgs.filter qualifies).map itemLabel).reverse := by
  unfold get_image_items
  rw [collectItems_eq_filter]
  by_cases h : (imgs.filter qualifies).isEmpty
  · have h2 : imgs.filter qualifies = [] := by simpa using h
    simp [h2]
  · have h2 : imgs.filter qualifies ≠ [] := by simpa using h
    rw [if_neg (by simpa using h), if_neg]
    simp [h2]

/-- An entry of `bpy.data.images`: object identity, name, and opaque pixel
content. -/
structure BlendImage where
  id : ℕ
  name : String
  data : ℕ
deriving DecidableEq, Repr

/-- The image cleanup loop of `unregister` (src lines 491-493): iterate
over a copy of the collection and remove every image whose name starts
with the bake-scratch marker. -/
def unregister_images : List BlendImage → List BlendImage
  | [] => []
  | img :: rest =>
      if startsWithB img.name "_bake_" then unregister_images rest
      else img :: unregister_images rest

/-- C10: `unregister` removes exactly the images whose name starts with
the `_bake_` marker — including any user-created image carrying that name
marker, since only the name is consulted — and keeps every other image,
in order. -/
theorem c10_unregister_removes_bake_images (imgs : List BlendImage) :
    unregister_images imgs
      = imgs.filter (fun img => !(startsWithB img.name "_bake_")) ∧
    ∀ img : BlendImage,
      img ∈ unregister_images imgs ↔
        (img ∈ imgs ∧ startsWithB img.name "_bake_" = false) := by
  have he : unregister_images imgs
      = imgs.filter (fun img => !(startsWithB img.name "_bake_")) := by
    induction imgs with
    | nil => rfl
    | cons img rest ih =>
        by_cases h : startsWithB img.name "_bake_"
        · simp [unregister_images, h, ih]
        · simp [unregister_images, h, ih]
  refine ⟨he, ?_⟩
  intro img
  rw [he]
  simp [List.mem_filter]

/-- The file system as the save operation affects it: writes prepend, the
most recent write to a path shadows earlier content (`img.save()`
overwrites whatever was at the path). -/
abbrev FileSys : Type := List (String × ℕ)

/-- The deterministic output path of src line 458:
`os.path.join(output_dir, f"T_{target_name}_{suffix}.png")`. -/
def savePath (dir target suffix : String) : String :=
  dir ++ "/" ++ "T_" ++ target ++ "_" ++ suffix ++ ".png"

/-- `bpy.data.images.get(name)`: the registered image with that name. -/
def findImage (imgs : List BlendImage) (nm : String) : Option BlendImage :=
  imgs.find? (fun i => i.name = nm)

/-- The suffix table of src lines 446-452, in iteration order. -/
def texture_map : List (String × String) :=
  [("BC", "_bake_basecolor"), ("N", "_bake_normal"), ("ORM", "_bake_orm"),
    ("E", "_bake_emissive"), ("O", "_bake_opacity")]

/-- The save loop of src lines 455-463: for each (suffix, image name)
pair, if such an image is registered, write its content to the
deterministic path and remove the image handle (by object identity),
counting successful saves. -/
def saveLoop (dir target : String) :
    List (String × String) → List BlendImage → FileSys → ℕ →
      List BlendImage × FileSys × ℕ
  | [], imgs, fs, saved => (imgs, fs, saved)
  | (suffix, img_name) :: rest, imgs, fs, saved =>
      match findImage imgs img_name with
      | none => saveLoop dir target rest imgs fs saved
      | some img =>
          saveLoop dir target rest
            (imgs.filter (fun j => j.id ≠ img.id))
            ((savePath dir target suffix, img.data) :: fs)
            (saved + 1)

/-- `OBJECT_OT_bake_materials_save.execute` (src lines 437-470): report an
error and change nothing when the output directory is missing; otherwise
run the save loop and report CANCELLED when nothing was saved. -/
def bake_materials_save (dirExists : Bool) (dir target : String)
    (imgs : List BlendImage) (fs : FileSys) :
    String × List BlendImage × FileSys :=
  if ¬dirExists then ("CANCELLED", imgs, fs)
  else
    let r := saveLoop dir target texture_map imgs fs 0
    if r.2.2 = 0 then ("CANCELLED", r.1, r.2.1)
    else ("FINISHED", r.1, r.2.1)

theorem savePath_inj (dir target : String) :
    Function.Injective (savePath dir target) := by
  intro s1 s2 h
  apply String.ext
  have hd := congrArg String.data h
  simp only [savePath, String.data_append] at hd
  exact List.append_cancel_left (List.append_cancel_right hd)

theorem saveLoop_lookup_of_path_notin (dir target : String)
    (tm : List (String × String)) :
    ∀ (imgs : List BlendImage) (fs : FileSys) (n : ℕ) (p : String),
      (∀ e ∈ tm, savePath dir target e.1 ≠ p) →
      List.lookup p (saveLoop dir target tm imgs fs n).2.1
        = List.lookup p fs := by
  induction tm with
  | nil => intro imgs fs n p h; rfl
  | cons e rest ih =>
      intro imgs fs n p h
      obtain ⟨suffix, img_name⟩ := e
      have hp : savePath dir target suffix ≠ p :=
        h _ (List.mem_cons_self _ _)
      have hrest : ∀ x ∈ rest, savePath dir target x.1 ≠ p :=
        fun x hx => h x (List.mem_cons_of_mem _ hx)
      simp only [saveLoop]
      cases hf : findImage imgs img_name with
      | none => exact ih imgs fs n p hrest
      | some img =>
          rw [ih _ _ _ p hrest]
          have hp2 : (p == savePath dir target suffix) = false := by
            simp only [beq_eq_false_iff_ne, ne_eq]
            exact fun hh => hp hh.symm
          simp [List.lookup, hp2]

theorem saveLoop_preserves_absent (dir target : String)
    (tm : List (String × String)) :
    ∀ (imgs : List BlendImage) (fs : FileSys) (n : ℕ) (nm : String),
      findImage imgs nm = none →
      findImage (saveLoop dir target tm imgs fs n).1 nm = none := by
  induction tm with
  | nil => intro imgs fs n nm h; exact h
  | cons e rest ih =>
      intro imgs fs n nm h
      obtain ⟨suffix, img_name⟩ := e
      simp only [saveLoop]
      cases hf : findImage imgs img_name with
      | none => exact ih imgs fs n nm h
      | some img =>
          apply ih
          unfold findImage at h ⊢
          rw [List.find?_eq_none] at h ⊢
          intro x hx
          exact h x (List.mem_of_mem_filter hx)

theorem findImage_filter_id (imgs : List BlendImage) (img0 : BlendImage)
    (nm : String)
    (hni : ∀ j ∈ imgs, j.id = img0.id → j = img0)
    (hnm : img0.name ≠ nm) :
    findImage (imgs.filter (fun j => j.id ≠ img0.id)) nm
      = findImage imgs nm := by
  induction imgs with
  | nil => rfl
  | cons j rest ih =>
      have ihr := ih (fun x hx hxx => hni x (List.mem_cons_of_mem _ hx) hxx)
      by_cases hid : j.id = img0.id
      · have hj : j = img0 := hni j (List.mem_cons_self _ _) hid
        have hjn : ¬ j.name = nm := by rw [hj]; exact hnm
        have hq : (decide (j.id ≠ img0.id)) = false := by
          simp [hid]
        have hpj : (decide (j.name = nm)) = false := by
          simp [hjn]
        simp only [findImage] at ihr ⊢
        rw [List.filter_cons, hq]
        simp only [Bool.false_eq_true, if_false]
        rw [List.find?_cons, hpj]
        exact ihr
      · have hq : (decide (j.id ≠ img0.id)) = true := by
          simp [hid]
        simp only [findImage] at ihr ⊢
        rw [List.filter_cons, hq]
        simp only [if_true]
        rw [List.find?_cons, List.find?_cons]
        cases hpj : (decide (j.name = nm)) with
        | true => rfl
        | false => exact ihr

theorem saveLoop_spec (dir target : String) (tm : List (String × String)) :
    ∀ (imgs : List BlendImage) (fs : FileSys) (n : ℕ),
      (tm.map Prod.snd).Nodup →
      (tm.map (fun e => savePath dir target e.1)).Nodup →
      (imgs.map (fun i => i.name)).Nodup →
      (imgs.map (fun i => i.id)).Nodup →
      ∀ suffix nm, (suffix, nm) ∈ tm →
        (∀ img, findImage imgs nm = some img →
          List.lookup (savePath dir target suffix)
              (saveLoop dir target tm imgs fs n).2.1 = some img.data ∧
          findImage (saveLoop dir target tm imgs fs n).1 nm = none) ∧
        (findImage imgs nm = none →
          List.lookup (savePath dir target suffix)
              (saveLoop dir target tm imgs fs n).2.1
            = List.lookup (savePath dir target suffix) fs) := by
  induction tm with
  | nil =>
      intro imgs fs n _ _ _ _ suffix nm hmem
      simp at hmem
  | cons e rest ih =>
      intro imgs fs n hnm hnp hin hii suffix nm hmem
      obtain ⟨s0, n0⟩ := e
      have hnm_tail : (rest.map Prod.snd).Nodup := by
        simpa using hnm.of_cons
      have hnp_tail :
          (rest.map (fun e => savePath dir target e.1)).Nodup := by
        simpa using hnp.of_cons
      have hn0_notin : n0 ∉ rest.map Prod.snd := by
        have h6 := hnm
        simp only [List.map_cons, List.nodup_cons] at h6
        exact h6.1
      have hp0_notin :
          savePath dir target s0 ∉
            rest.map (fun e => savePath dir target e.1) := by
        have h6 := hnp
        simp only [List.map_cons, List.nodup_cons] at h6
        exact h6.1
      rcases List.mem_cons.mp hmem with heq | htail
      · -- the queried entry is the head entry
        injection heq with hs hn
        subst hs
        subst hn
        constructor
        · intro img hfind
          have hstep : saveLoop dir target ((suffix, nm) :: rest) imgs fs n
              = saveLoop dir target rest
                  (imgs.filter (fun j => j.id ≠ img.id))
                  ((savePath dir target suffix, img.data) :: fs) (n + 1) := by
            simp only [saveLoop]
            rw [hfind]
          constructor
          · rw [hstep]
            rw [saveLoop_lookup_of_path_notin dir target rest _ _ _ _
              (fun x hx hxe => hp0_notin (by
                rw [← hxe]
                exact List.mem_map_of_mem _ hx))]
            simp [List.lookup]
          · rw [hstep]
            apply saveLoop_preserves_absent
            unfold findImage
            rw [List.find?_eq_none]
            intro x hx hxn
            rw [List.mem_filter] at hx
            have hfind2 : imgs.find? (fun i => i.name = nm) = some img :=
              hfind
            have himg : img ∈ imgs ∧ img.name = nm :=
              ⟨List.mem_of_find?_eq_some hfind2,
                by simpa using List.find?_some hfind2⟩
            have hxeq : x = img := by
              apply List.inj_on_of_nodup_map hin hx.1 himg.1
              have h7 : x.name = nm := by simpa using hxn
              rw [h7, himg.2]
            rw [hxeq] at hx
            simp at hx
        · intro hnone
          have hstep : saveLoop dir target ((suffix, nm) :: rest) imgs fs n
              = saveLoop dir target rest imgs fs n := by
            simp only [saveLoop]
            rw [hnone]
          rw [hstep]
          exact saveLoop_lookup_of_path_notin dir target rest _ _ _ _
            (fun x hx hxe => hp0_notin (by
              rw [← hxe]
              exact List.mem_map_of_mem _ hx))
      · -- the queried entry is in the tail
        have hs_ne : savePath dir target suffix ≠ savePath dir target s0 := by
          intro hceq
          apply hp0_notin
          rw [← hceq]
          exact List.mem_map_of_mem (fun e => savePath dir target e.1) htail
        have hn_ne : nm ≠ n0 := by
          intro hceq
          apply hn0_notin
          rw [← hceq]
          exact List.mem_map_of_mem Prod.snd htail
        cases hf0 : findImage imgs n0 with
        | none =>
            have hstep : saveLoop dir target ((s0, n0) :: rest) imgs fs n
                = saveLoop dir target rest imgs fs n := by
              simp only [saveLoop]
              rw [hf0]
            rw [hstep]
            exact ih imgs fs n hnm_tail hnp_tail hin hii suffix nm htail
        | some img0 =>
            have hstep : saveLoop dir target ((s0, n0) :: rest) imgs fs n
                = saveLoop dir target rest
                    (imgs.filter (fun j => j.id ≠ img0.id))
                    ((savePath dir target s0, img0.data) :: fs) (n + 1) := by
              simp only [saveLoop]
              rw [hf0]
            have hf0b : imgs.find? (fun i => i.name = n0) = some img0 :=
              hf0
            have himg0 : img0 ∈ imgs ∧ img0.name = n0 :=
              ⟨List.mem_of_find?_eq_some hf0b,
                by simpa using List.find?_some hf0b⟩
            have hfilter_eq :
                findImage (imgs.filter (fun j => j.id ≠ img0.id)) nm
                  = findImage imgs nm := by
              apply findImage_filter_id imgs img0 nm
              · intro j hj hjid
                exact List.inj_on_of_nodup_map hii hj himg0.1 hjid
              · rw [himg0.2]
                exact fun hceq => hn_ne hceq.symm
            have hin2 : ((imgs.filter (fun j => j.id ≠ img0.id)).map
                (fun i => i.name)).Nodup :=
              ((List.filter_sublist imgs).map _).nodup hin
            have hii2 : ((imgs.filter (fun j => j.id ≠ img0.id)).map
                (fun i => i.id)).Nodup :=
              ((List.filter_sublist imgs).map _).nodup hii
            have IH := ih (imgs.filter (fun j => j.id ≠ img0.id))
              ((savePath dir target s0, img0.data) :: fs) (n + 1)
              hnm_tail hnp_tail hin2 hii2 suffix nm htail
            constructor
            · intro img hfind
              rw [hstep]
              exact IH.1 img (hfilter_eq.symm ▸ hfind)
            · intro hnone
              rw [hstep]
              rw [IH.2 (hfilter_eq.symm ▸ hnone)]
              have hp2 : (savePath dir target suffix
                  == savePath dir target s0) = false := by
                simp only [beq_eq_false_iff_ne, ne_eq]
                exact hs_ne
              simp [List.lookup, hp2]

theorem texture_map_names_nodup : (texture_map.map Prod.snd).Nodup := by
  decide

theorem texture_map_paths_nodup (dir target : String) :
    (texture_map.map (fun e => savePath dir target e.1)).Nodup := by
  have h1 : (texture_map.map Prod.fst).Nodup := by decide
  have h2 := List.Nodup.map (savePath_inj dir target) h1
  rw [List.map_map] at h2
  exact h2

theorem bake_materials_save_true_snd (dir target : String)
    (imgs : List BlendImage) (fs : FileSys) :
    (bake_materials_save true dir target imgs fs).2
      = ((saveLoop dir target texture_map imgs fs 0).1,
          (saveLoop dir target texture_map imgs fs 0).2.1) := by
  unfold bake_materials_save
  simp only [not_true, if_false]
  split <;> rfl

/-- C9: the save operation writes each retained baked image exactly to
`output_dir/T_<base>_<suffix>.png` for its suffix (BC/N/ORM/E/O),
overwriting whatever the path held, and removes the in-memory image handle
after the write; a suffix with no retained image writes nothing to its
path; and when the output directory does not exist it reports an error
and neither writes a file nor removes an image. -/
theorem c9_save_textures (dirExists : Bool) (dir target : String)
    (imgs : List BlendImage) (fs : FileSys)
    (hin : (imgs.map (fun i => i.name)).Nodup)
    (hii : (imgs.map (fun i => i.id)).Nodup) :
    (dirExists = false →
      bake_materials_save dirExists dir target imgs fs
        = ("CANCELLED", imgs, fs)) ∧
    (dirExists = true →
      ∀ suffix nm, (suffix, nm) ∈ texture_map →
        (∀ img, findImage imgs nm = some img →
          List.lookup (savePath dir target suffix)
              (bake_materials_save dirExists dir target imgs fs).2.2
            = some img.data ∧
          findImage
              (bake_materials_save dirExists dir target imgs fs).2.1 nm
            = none) ∧
        (findImage imgs nm = none →
          List.lookup (savePath dir target suffix)
              (bake_materials_save dirExists dir target imgs fs).2.2
            = List.lookup (savePath dir target suffix) fs)) := by
  constructor
  · intro h
    subst h
    rfl
  · intro h
    subst h
    intro suffix nm hmem
    have hsnd := bake_materials_save_true_snd dir target imgs fs
    have h21 : (bake_materials_save true dir target imgs fs).2.1
        = (saveLoop dir target texture_map imgs fs 0).1 :=
      congrArg Prod.fst hsnd
    have h22 : (bake_materials_save true dir target imgs fs).2.2
        = (saveLoop dir target texture_map imgs fs 0).2.1 :=
      congrArg Prod.snd hsnd
    have HS := saveLoop_spec dir target texture_map imgs fs 0
      texture_map_names_nodup (texture_map_paths_nodup dir target)
      hin hii suffix nm hmem
    constructor
    · intro img hfind
      rw [h21, h22]
      exact HS.1 img hfind
    · intro hnone
      rw [h22]
      exact HS.2 hnone

/-- Concrete images for the save witness: basecolor and normal retained,
the other three suffixes absent. -/
def wImgs : List BlendImage :=
  [⟨1, "_bake_basecolor", 11⟩, ⟨2, "_bake_normal", 12⟩]

/-- A pre-existing file at the basecolor output path, to exercise the
overwrite. -/
def wFs : FileSys := [(savePath "/out" "Tex" "BC", 99)]

theorem c9_save_textures_witness :
    bake_materials_save false "/out" "Tex" wImgs wFs
      = ("CANCELLED", wImgs, wFs) ∧
    (List.lookup (savePath "/out" "Tex" "BC")
        (bake_materials_save true "/out" "Tex" wImgs wFs).2.2
      = some 11 ∧
      findImage (bake_materials_save true "/out" "Tex" wImgs wFs).2.1
        "_bake_basecolor" = none) ∧
    List.lookup (savePath "/out" "Tex" "ORM")
        (bake_materials_save true "/out" "Tex" wImgs wFs).2.2
      = List.lookup (savePath "/out" "Tex" "ORM") wFs :=
  ⟨(c9_save_textures false "/out" "Tex" wImgs wFs (by decide)
      (by decide)).1 rfl,
    ((c9_save_textures true "/out" "Tex" wImgs wFs (by decide)
        (by decide)).2 rfl "BC" "_bake_basecolor" (by decide)).1
      ⟨1, "_bake_basecolor", 11⟩ (by decide),
    ((c9_save_textures true "/out" "Tex" wImgs wFs (by decide)
        (by decide)).2 rfl "ORM" "_bake_orm" (by decide)).2 (by decide)⟩

/-- The graph state of one usable (local, node-based) material during the
bake passes of `execute`: the emission-relevant state of its containing
tree plus the number of temporary `_bake_temp_node` image-sampling nodes
currently injected into its tree by `_inject_bake_nodes`. -/
structure MatPassState where
  ct : ContainingTree
  injected : ℕ
deriving DecidableEq, Repr

/-- The rewire source input of each of the seven bake passes of `execute`
(src lines 174-221), in order: 1 Emissive (no rewire), 2 Base Color
(rewired), 3 Normal, 4 AO, 5 Roughness, 6 Opacity (Alpha rewired),
7 Metallic (rewired). -/
def passPlan : List (Option String) :=
  [none, some "Base Color", none, none, none, some "Alpha", some "Metallic"]

/-- One bake pass as `execute` runs it (e.g. src lines 182-187): inject
the bake node, rewire when the pass needs the emission trick, invoke
`bpy.ops.object.bake`; on success restore the rewire and remove the
injected node. When the bake call raises, the exception propagates
straight to the `except` clause of `execute` (src line 233): the
`_restore_rewire` and `_remove_bake_nodes` calls of the pass are NOT
executed, and `.error` carries the state in which the exception left the
graph. -/
def bakePass (st : MatPassState) (rewireName : Option String)
    (bakeRaises : Bool) : Except MatPassState MatPassState :=
  let st1 : MatPassState := { st with injected := st.injected + 1 }
  let p : MatPassState × Option RestoreRecord :=
    match rewireName with
    | none => (st1, none)
    | some nm =>
        let q := setup_rewire_tree st1.ct nm
        ({ st1 with ct := q.1 }, some q.2)
  if bakeRaises then .error p.1
  else
    let st3 : MatPassState :=
      match p.2 with
      | none => p.1
      | some rr => { p.1 with ct := restore_rewire_tree p.1.ct rr }
    .ok { st3 with injected := st3.injected - 1 }

/-- The pass sequence of `execute`'s try block, with 1-based pass
numbering; `failAt = some k` makes the k-th `bpy.ops.object.bake` call
raise. The first exception aborts the remaining passes; the `finally`
block (src lines 236-245) restores engine/device/mode/selection and the
library-material slots but never touches a local material's node graph,
so the returned graph state is also the post-`execute` state. -/
def runPassesGo :
    List (Option String) → ℕ → Option ℕ → MatPassState →
      Bool × MatPassState
  | [], _, _, st => (true, st)
  | rn :: rest, k, failAt, st =>
      match bakePass st rn (failAt == some k) with
      | .error st2 => (false, st2)
      | .ok st2 => runPassesGo rest (k + 1) failAt st2

/-- The seven bake passes of `execute` on one material's graph state. -/
def runBakePasses (failAt : Option ℕ) (st : MatPassState) :
    Bool × MatPassState :=
  runPassesGo passPlan 1 failAt st

/-- A concrete pre-`execute` graph state: emission color linked from
socket 7, non-trivial defaults, unlinked scalar Base Color source, no
extra nodes. -/
def c2Init : MatPassState :=
  { ct :=
      { emissionColorLinks := [7]
        emissionColorDefault := [2, 3, 5, 1]
        emissionStrength := 4
        sourceLinks := []
        sourceDefault := .scalar 6
        nodes := []
        nextId := 100 }
    injected := 0 }

/-- C2 fails on the code: when the bake call of pass 2 (Base Color, via
the emission rewire) raises, `execute` catches the exception but the
pass's `_restore_rewire` / `_remove_bake_nodes` calls are skipped and the
`finally` block does not perform them either, so the material graph is
left mutated: the injected image-sampling node is still present, emission
strength is still forced to 1, the emission-color link still points at
the temporary constant node, and the temporary node is still in the tree.
On the success path (no exception) the graph is restored exactly, which
is the invariant the claim intends. -/
theorem c2_bake_exception_leaves_graph_mutated :
    (runBakePasses (some 2) c2Init).1 = false ∧
    (runBakePasses (some 2) c2Init).2.injected = 1 ∧
    (runBakePasses (some 2) c2Init).2.ct.emissionStrength
      ≠ c2Init.ct.emissionStrength ∧
    (runBakePasses (some 2) c2Init).2.ct.emissionColorLinks
      ≠ c2Init.ct.emissionColorLinks ∧
    (runBakePasses (some 2) c2Init).2.ct.nodes ≠ c2Init.ct.nodes ∧
    (runBakePasses none c2Init).2.injected = 0 ∧
    (runBakePasses none c2Init).2.ct.emissionColorLinks
      = c2Init.ct.emissionColorLinks ∧
    (runBakePasses none c2Init).2.ct.emissionColorDefault
      = c2Init.ct.emissionColorDefault ∧
    (runBakePasses none c2Init).2.ct.emissionStrength
      = c2Init.ct.emissionStrength ∧
    (runBakePasses none c2Init).2.ct.nodes = c2Init.ct.nodes := by
  decide

/-- The scene/preferences/object state `execute` saves and restores, plus
the image collection (object identities and names) and the fresh-id
counter modelling `bpy.data.images.new` allocating new objects. -/
structure RenderState where
  engine : String
  device : String
  compute_device_type : String
  mode : String
  selected : Bool
  images : List BlendImage
  nextImg : ℕ
deriving DecidableEq, Repr

/-- The bake-image channels allocated at src lines 161-165, in order. -/
def bakeChannels : List String :=
  ["basecolor", "normal", "ao", "roughness", "metallic", "emissive",
    "opacity"]

/-- `execute` (src lines 104-262) from the point where its validation
passed, restricted to the state claim C3 concerns: capture and force
selection, mode, engine and compute device; allocate the seven bake
images; run the try block (the bake passes touch only material graphs,
modelled by `runBakePasses`; `_pack_orm` registers the ORM image only
when every pass succeeded, `failAt = some k` with `k ≤ 7` being a bake
failure and `k = 8` a packing failure); then the `finally` block restores
device, compute type, engine, mode and selection; then the intermediate
AO/roughness/metallic images are removed, and on failure every remaining
allocated image is removed (by object identity, guarded by a
name-membership test that a plain filter subsumes) and CANCELLED is
returned. -/
def execute_cleanup (s : RenderState) (gpuBackend : Option String)
    (failAt : Option ℕ) : String × RenderState :=
  let was_selected := s.selected
  let s1 : RenderState := { s with selected := true }
  let original_mode := s1.mode
  let s2 : RenderState :=
    if s1.mode ≠ "OBJECT" then { s1 with mode := "OBJECT" } else s1
  let original_engine := s2.engine
  let s3 : RenderState :=
    if original_engine ≠ "CYCLES" then { s2 with engine := "CYCLES" }
    else s2
  let original_device := s3.device
  let original_compute_type := s3.compute_device_type
  let s4 : RenderState :=
    match gpuBackend with
    | some b => { s3 with compute_device_type := b, device := "GPU" }
    | none => { s3 with device := "CPU" }
  let s5 : RenderState := bakeChannels.foldl
    (fun st ch =>
      { st with
          images := st.images ++ [⟨st.nextImg, "_bake_" ++ ch, 0⟩]
          nextImg := st.nextImg + 1 }) s4
  let s6 : RenderState :=
    if failAt.isNone then
      { s5 with
          images := s5.images ++ [⟨s5.nextImg, "_bake_orm", 0⟩]
          nextImg := s5.nextImg + 1 }
    else s5
  let s7 : RenderState :=
    { s6 with
        device := original_device
        compute_device_type := original_compute_type
        engine := original_engine }
  let s8 : RenderState :=
    if s7.mode ≠ original_mode then { s7 with mode := original_mode }
    else s7
  let s9 : RenderState :=
    if ¬was_selected then { s8 with selected := false } else s8
  let s10 : RenderState :=
    [s4.nextImg + 2, s4.nextImg + 3, s4.nextImg + 4].foldl
      (fun st i =>
        { st with images := st.images.filter (fun j => j.id ≠ i) }) s9
  if failAt.isNone then ("FINISHED", s10)
  else
    let s11 : RenderState :=
      ((List.range 7).map (fun j => s4.nextImg + j)).foldl
        (fun st i =>
          { st with images := st.images.filter (fun j => j.id ≠ i) }) s10
    ("CANCELLED", s11)

theorem filter_id_fresh (imgs : List BlendImage) (n : ℕ)
    (h : ∀ img ∈ imgs, img.id < n) (c : ℕ) (hc : n ≤ c) :
    imgs.filter (fun j => j.id ≠ c) = imgs := by
  apply List.filter_eq_self.mpr
  intro img hm
  have := h img hm
  simp only [ne_eq, decide_eq_true_eq]
  omega

/-- The seven bake images `execute` allocates, with consecutive ids from
the fresh-id counter. -/
def allocList : List String → ℕ → List BlendImage
  | [], _ => []
  | ch :: rest, n => ⟨n, "_bake_" ++ ch, 0⟩ :: allocList rest (n + 1)

theorem allocFold_spec (chs : List String) :
    ∀ st : RenderState,
      chs.foldl
        (fun st ch =>
          { st with
              images := st.images ++ [⟨st.nextImg, "_bake_" ++ ch, 0⟩]
              nextImg := st.nextImg + 1 }) st
      = { st with
            images := st.images ++ allocList chs st.nextImg
            nextImg := st.nextImg + chs.length } := by
  induction chs with
  | nil => intro st; simp [allocList]
  | cons ch rest ih =>
      intro st
      rw [List.foldl_cons, ih]
      simp only [allocList, List.length_cons]
      obtain ⟨e, d, c, m, sel, imgs, n⟩ := st
      simp only [RenderState.mk.injEq]
      refine ⟨trivial, trivial, trivial, trivial, trivial, ?_, by omega⟩
      simp [List.append_assoc]

theorem removeFold_spec (ids : List ℕ) :
    ∀ st : RenderState,
      ids.foldl
        (fun st i =>
          { st with images := st.images.filter (fun j => j.id ≠ i) }) st
      = { st with
            images := st.images.filter (fun j => decide (j.id ∉ ids)) } := by
  induction ids with
  | nil =>
      intro st
      obtain ⟨e, d, c, m, sel, imgs, n⟩ := st
      simp
  | cons i rest ih =>
      intro st
      rw [List.foldl_cons, ih]
      obtain ⟨e, d, c, m, sel, imgs, n⟩ := st
      simp only [RenderState.mk.injEq, true_and]
      refine ⟨?_, trivial⟩
      rw [List.filter_filter]
      apply List.filter_congr
      intro j hj
      by_cases h1 : j.id = i <;> by_cases h2 : j.id ∈ rest <;>
        simp [h1, h2]

theorem allocList_id_range (chs : List String) :
    ∀ (n : ℕ) (img : BlendImage), img ∈ allocList chs n →
      n ≤ img.id ∧ img.id < n + chs.length := by
  induction chs with
  | nil => intro n img h; simp [allocList] at h
  | cons ch rest ih =>
      intro n img h
      simp only [allocList, List.mem_cons] at h
      rcases h with h | h
      · subst h
        simp only [List.length_cons]
        omega
      · have := ih (n + 1) img h
        simp only [List.length_cons]
        omega

/-- C3: when a bake channel (k in 1..7) or the packing step (k = 8)
raises, `execute` returns CANCELLED, every image it allocated is removed
(the image collection is exactly as before the call), and engine, compute
device, compute device type, object mode and selection are restored to
their pre-call values by the `finally` block. -/
theorem c3_failure_cleanup (s : RenderState) (gpuBackend : Option String)
    (k : ℕ) (hk1 : 1 ≤ k) (hk2 : k ≤ 8)
    (hfresh : ∀ img ∈ s.images, img.id < s.nextImg) :
    (execute_cleanup s gpuBackend (some k)).1 = "CANCELLED" ∧
    (execute_cleanup s gpuBackend (some k)).2.engine = s.engine ∧
    (execute_cleanup s gpuBackend (some k)).2.device = s.device ∧
    (execute_cleanup s gpuBackend (some k)).2.compute_device_type
      = s.compute_device_type ∧
    (execute_cleanup s gpuBackend (some k)).2.mode = s.mode ∧
    (execute_cleanup s gpuBackend (some k)).2.selected = s.selected ∧
    (execute_cleanup s gpuBackend (some k)).2.images = s.images := by
  have himg :
      ((s.images ++ allocList bakeChannels s.nextImg).filter
          (fun j => decide (j.id ∉
            [s.nextImg + 2, s.nextImg + 3, s.nextImg + 4]))).filter
        (fun j => decide (j.id ∉
          (List.range 7).map (fun j => s.nextImg + j))) = s.images := by
    rw [List.filter_filter, List.filter_append]
    have hA : s.images.filter
        (fun a => decide (a.id ∉
            (List.range 7).map (fun j => s.nextImg + j)) &&
          decide (a.id ∉
            [s.nextImg + 2, s.nextImg + 3, s.nextImg + 4])) = s.images := by
      apply List.filter_eq_self.mpr
      intro img hm
      have h5 := hfresh img hm
      have e1 : decide (img.id ∉
          (List.range 7).map (fun j => s.nextImg + j)) = true := by
        simp only [decide_eq_true_eq, List.mem_map, List.mem_range,
          not_exists, not_and]
        intro x hx
        omega
      have e2 : decide (img.id ∉
          [s.nextImg + 2, s.nextImg + 3, s.nextImg + 4]) = true := by
        simp only [decide_eq_true_eq, List.mem_cons, List.not_mem_nil,
          not_or]
        norm_num
        omega
      rw [e1, e2]
      rfl
    have hB : (allocList bakeChannels s.nextImg).filter
        (fun a => decide (a.id ∉
            (List.range 7).map (fun j => s.nextImg + j)) &&
          decide (a.id ∉
            [s.nextImg + 2, s.nextImg + 3, s.nextImg + 4])) = [] := by
      apply List.filter_eq_nil_iff.mpr
      intro img hm
      have h5 := allocList_id_range bakeChannels s.nextImg img hm
      simp only [bakeChannels, List.length_cons, List.length_nil] at h5
      intro hcon
      rw [Bool.and_eq_true] at hcon
      have h6 := of_decide_eq_true hcon.1
      apply h6
      exact List.mem_map.mpr
        ⟨img.id - s.nextImg, List.mem_range.mpr (by omega), by omega⟩
    rw [hA, hB, List.append_nil]
  simp only [execute_cleanup, allocFold_spec, removeFold_spec,
    Option.isNone_some, Bool.false_eq_true, if_false]
  by_cases hm : s.mode = "OBJECT" <;>
    by_cases he : s.engine = "CYCLES" <;>
      cases hsel : s.selected <;>
        cases gpuBackend <;>
          simp_all [himg]

/-- A concrete pre-call state for the cleanup witness: EEVEE engine, CPU
device, edit mode, object unselected, one user image registered. -/
def c3WitnessState : RenderState :=
  { engine := "BLENDER_EEVEE"
    device := "CPU"
    compute_device_type := "NONE"
    mode := "EDIT"
    selected := false
    images := [⟨0, "UserTexture", 5⟩]
    nextImg := 1 }

theorem c3_failure_cleanup_witness :
    (execute_cleanup c3WitnessState (some "CUDA") (some 3)).1
      = "CANCELLED" ∧
    (execute_cleanup c3WitnessState (some "CUDA") (some 3)).2.engine
      = c3WitnessState.engine ∧
    (execute_cleanup c3WitnessState (some "CUDA") (some 3)).2.device
      = c3WitnessState.device ∧
    (execute_cleanup c3WitnessState (some "CUDA")
        (some 3)).2.compute_device_type
      = c3WitnessState.compute_device_type ∧
    (execute_cleanup c3WitnessState (some "CUDA") (some 3)).2.mode
      = c3WitnessState.mode ∧
    (execute_cleanup c3WitnessState (some "CUDA") (some 3)).2.selected
      = c3WitnessState.selected ∧
    (execute_cleanup c3WitnessState (some "CUDA") (some 3)).2.images
      = c3WitnessState.images :=
  c3_failure_cleanup c3WitnessState (some "CUDA") 3 (by omega) (by omega)
    (by decide)

end UVBaker
